import Mathlib

/-!
Verification development for the gdrive2kalturabulk tool.

The source is a browser tool that recursively walks a Google Drive folder
tree (`getDriveFiles` in index.html), accumulates one row per media file in
a global `files` array, tracks in-flight subtree visits in a global `runs`
array of tokens, and renders a CSV (`makeCsv` in index.html together with
`arrayToCSVLine` and `escapeDoubleQuotes` in utils.js).

The embedding below models the traversal as a small-step transition system:
the global mutable state (`runs`, `files`, the set of not-yet-executed
asynchronous visits) is a `St`; one step atomically runs the body of one
pending visit (the `forEach` over its listing, which in JavaScript runs
without interruption once the awaited fetch has resolved) followed by the
visit's `.then` deregistration handler (a microtask that runs before any
other fetch resolution can be processed).  A scheduler may pick any pending
visit, which over-approximates the possible network orderings.
-/

namespace GD

/-! ## JavaScript string primitives used by the source -/

/-- Character containment, the model of the JS `String.prototype.includes`
with a single-character argument (used as `value.includes(',')`). -/
def includesChar (s : String) (c : Char) : Bool :=
  s.data.contains c

/-- Number of occurrences of a character in a string. -/
def countChar (s : String) (c : Char) : Nat :=
  s.data.count c

/-- Split a character list on every occurrence of a character; the model of
the JS `String.prototype.split` with a one-character separator.  Like the
JS original it returns one (possibly empty) piece more than the number of
separators: splitting the empty string yields a single empty piece. -/
def splitOnChar (c : Char) : List Char → List (List Char)
  | [] => [[]]
  | x :: xs =>
    match splitOnChar c xs with
    | [] => [[]]
    | p :: ps => if x = c then [] :: p :: ps else (x :: p) :: ps

/-- Does the character list start with the given pattern? -/
def startsWithChars : List Char → List Char → Bool
  | _, [] => true
  | [], _ :: _ => false
  | a :: as, b :: bs => a == b && startsWithChars as bs

/-- Substring occurrence: the model of `s.indexOf(pat) > -1` in JS; note
this is containment anywhere, not a test of the string's beginning. -/
def charsHaveSub : List Char → List Char → Bool
  | [], pat => startsWithChars [] pat
  | l@(_ :: xs), pat => startsWithChars l pat || charsHaveSub xs pat

/-- `s.indexOf(pat) > -1` on strings. -/
def hasSubstr (s pat : String) : Bool :=
  charsHaveSub s.data pat.data

/-- Join a list of strings with commas; the model of the JS array join with a comma. -/
def joinComma : List String → String
  | [] => ""
  | [s] => s
  | s :: ss => s ++ "," ++ joinComma ss

/-- UTF-8 encoding of a single character (byte values as naturals).  This is
what `unescape(encodeURIComponent(s))` produces per character in the source:
the individual UTF-8 bytes of the string. -/
def utf8EncodeChar (c : Char) : List Nat :=
  let n := c.toNat
  if n < 0x80 then [n]
  else if n < 0x800 then [0xC0 + n / 0x40, 0x80 + n % 0x40]
  else if n < 0x10000 then
    [0xE0 + n / 0x1000, 0x80 + (n / 0x40) % 0x40, 0x80 + n % 0x40]
  else
    [0xF0 + n / 0x40000, 0x80 + (n / 0x1000) % 0x40, 0x80 + (n / 0x40) % 0x40,
     0x80 + n % 0x40]

/-- The base64 alphabet used by `btoa`. -/
def b64Alphabet : List Char :=
  "ABCDEFGHIJKLMNOPQRSTUVWXYZabcdefghijklmnopqrstuvwxyz0123456789+/".data

/-- One base64 digit. -/
def b64Digit (n : Nat) : Char :=
  b64Alphabet.getD n '?'

/-- Standard base64 of a byte sequence, the model of `btoa`. -/
def base64Encode : List Nat → List Char
  | [] => []
  | [a] => [b64Digit (a / 4), b64Digit (a % 4 * 16), '=', '=']
  | [a, b] => [b64Digit (a / 4), b64Digit (a % 4 * 16 + b / 16), b64Digit (b % 16 * 4), '=']
  | a :: b :: c :: rest =>
    b64Digit (a / 4) :: b64Digit (a % 4 * 16 + b / 16) ::
      b64Digit (b % 16 * 4 + c / 64) :: b64Digit (c % 64) :: base64Encode rest

/-- The token computation of the source:
`btoa(unescape(encodeURIComponent(path)))`, i.e. base64 of the UTF-8 bytes. -/
def btoaUnescapeEncodeURIComponent (s : String) : String :=
  String.mk (base64Encode ((s.data.map utf8EncodeChar).flatten))

/-- Loose JS values, enough to model the resolved value of a promise:
either `undefined` or a string. -/
inductive JSVal
  | undef
  | str (s : String)
deriving DecidableEq, Repr

/-- `Array.prototype.indexOf`: index of the first strictly-equal element,
or `-1` when there is none. -/
def jsIndexOf (l : List JSVal) (v : JSVal) : Int :=
  match l.findIdx? (· == v) with
  | some i => (i : Int)
  | none => -1

/-- The actual start index used by `Array.prototype.splice`: a negative
`start` counts back from the end of the array (clamped at 0), a nonnegative
one is clamped at the length. -/
def jsSpliceStart (len : Nat) (start : Int) : Nat :=
  if start < 0 then (max ((len : Int) + start) 0).toNat else min start.toNat len

/-- `Array.prototype.splice(start, 1)`: remove at most one element at the
clamped start index. -/
def jsSpliceRemove1 (l : List String) (start : Int) : List String :=
  l.take (jsSpliceStart l.length start) ++ l.drop (jsSpliceStart l.length start + 1)

/-! ## utils.js -/

/-- utils.js lines 25-27: `str.replace(/"/g, '""')` — every double quote is
replaced by two double quotes (a global single-character replacement). -/
def escapeDoubleQuotes (str : String) : String :=
  String.mk ((str.data.map (fun c => if c = '"' then ['"', '"'] else [c])).flatten)

/-- The per-value body of `arrayToCSVLine` (utils.js lines 32-39): a string
containing a comma or a newline is wrapped in double quotes with internal
double quotes escaped; any other string passes through unchanged.  (In the
source the branch also checks `typeof value === 'string'`; every value the
tool ever serializes is a string, which the record construction below
guarantees.) -/
def csvSafe (value : String) : String :=
  if includesChar value ',' || includesChar value '\n' then
    "\"" ++ escapeDoubleQuotes value ++ "\""
  else value

/-- utils.js lines 29-43: map each value through the CSV-safe conversion and
join with commas. -/
def arrayToCSVLine (array : List String) : String :=
  joinComma (array.map csvSafe)

/-- utils.js line 20-22: first character upper-cased, rest unchanged.  (On
the empty string the source would throw; it is never called on one.) -/
def capitalizeFLetter (word : String) : String :=
  match word.data with
  | [] => ""
  | c :: rest => String.mk (c.toUpper :: rest)

/-! ## Data model of the drive -/

/-- One entry of an Entry's `owners` list. -/
structure Owner where
  displayName : String
  emailAddress : String
deriving DecidableEq, Repr

/-- The field projection requested from the listing API
(index.html line 16): id, name, mimeType, owners, description,
fileExtension.  `description` and `fileExtension` may be absent. -/
structure FileMeta where
  id : String
  name : String
  mimeType : String
  owners : List Owner
  description : Option String
  fileExtension : Option String
deriving DecidableEq, Repr

/-- A node of the drive tree: its listing metadata and (when it is a
folder) the children a listing request for its id would return. -/
inductive DriveTree
  | node (meta : FileMeta) (children : List DriveTree)
deriving Repr

/-- The folder mime type tested at index.html line 32. -/
def folderMime : String := "application/vnd.google-apps.folder"

def DriveTree.meta : DriveTree → FileMeta
  | .node m _ => m

def DriveTree.children : DriveTree → List DriveTree
  | .node _ cs => cs

mutual

/-- All folder nodes of one subtree, each once, as subtree values.  A
non-folder node contributes nothing (its children are never listed). -/
def folderForestT : DriveTree → List DriveTree
  | .node m cs =>
    if m.mimeType == folderMime then .node m cs :: folderForest cs else []

/-- All folder nodes of a forest, each exactly once. -/
def folderForest : List DriveTree → List DriveTree
  | [] => []
  | t :: ts => folderForestT t ++ folderForest ts

end

/-! ## The traversal (index.html lines 24-66) -/

/-- One pending invocation of `getDriveFiles`: the arguments it was called
with, and (in place of the folder id) the listing its awaited request will
return.  `self` is bookkeeping only: the folder subtree this visit is for
(`none` for the root invocation made by `makeCsv`, which also has no
deregistration handler). -/
structure Visit where
  children : List DriveTree
  driveName : String
  folderName : String
  categoryName : String
  metadataProfileId : String
  ownerId : String
  folderPath : String
  self : Option DriveTree

/-- The root invocation has no `.then` handler touching `runs`. -/
def Visit.isRoot (v : Visit) : Bool :=
  v.self.isNone

/-- The effect of one iteration of the `forEach` at index.html lines 27-65
on the entry `t`: tokens pushed onto `runs`, records pushed onto `files`,
and recursive visits spawned.

The spawned visit reproduces the recursive call at line 36 exactly:
`getDriveFiles(fileId, driveName, fileName, categoryName, metadataProfileId,
new_folder_path)` passes only six arguments to a seven-parameter function,
so `new_folder_path` is bound to the `ownerId` parameter and `folderPath`
falls back to its default `''`. -/
def entryEffect (v : Visit) (t : DriveTree) :
    List String × List (List String) × List Visit :=
  match t with
  | .node meta cs =>
    if meta.mimeType == folderMime then
      let new_folder_path := v.folderPath ++ " - " ++ meta.name
      ([btoaUnescapeEncodeURIComponent new_folder_path], [],
       [{ children := cs
          driveName := v.driveName
          folderName := meta.name
          categoryName := v.categoryName
          metadataProfileId := v.metadataProfileId
          ownerId := new_folder_path
          folderPath := ""
          self := some (.node meta cs) }])
    else if hasSubstr meta.mimeType "image/" || hasSubstr meta.mimeType "audio/"
        || hasSubstr meta.mimeType "video/" then
      let media_type := capitalizeFLetter
        (String.mk ((splitOnChar '/' meta.mimeType.data).headD []))
      let user_name := (meta.owners.headD ⟨"", ""⟩).displayName
      let user_email := (meta.owners.headD ⟨"", ""⟩).emailAddress
      let description := meta.description.getD ""
      let download_url := "https://drive.google.com/uc?export=download&id=" ++ meta.id
      ([],
       [[meta.name,
         "By " ++ user_name ++ " in " ++ v.folderName ++ ". \n" ++ description,
         "",
         download_url,
         meta.id,
         media_type,
         v.categoryName ++ ">" ++ v.driveName ++ " " ++ v.folderPath,
         user_email,
         v.ownerId,
         v.metadataProfileId]],
       [])
    else ([], [], [])

/-- The whole `forEach` over a listing, in listing order. -/
def processChildren (v : Visit) : List DriveTree →
    List String × List (List String) × List Visit
  | [] => ([], [], [])
  | t :: ts =>
    let e := entryEffect v t
    let r := processChildren v ts
    (e.1 ++ r.1, e.2.1 ++ r.2.1, e.2.2 ++ r.2.2)

/-- The global mutable state: the `runs` and `files` arrays of index.html
lines 21-22, the pending (spawned, not yet resolved) visits, and two pieces
of bookkeeping: the subtrees whose visits have resolved, and whether the
root invocation has resolved. -/
structure St where
  runs : List String
  files : List (List String)
  pending : List Visit
  visited : List DriveTree
  rootDone : Bool

/-- The deregistration handler at index.html lines 36-41: the resolved
value of `getDriveFiles` — an async function with no return statement — is
`undefined`, so `runs.indexOf(res)` searches a string array for `undefined`
and `runs.splice(index, 1)` runs with the resulting index. -/
def deregister (runs : List String) : List String :=
  jsSpliceRemove1 runs (jsIndexOf (runs.map JSVal.str) JSVal.undef)

/-- Used with `List.getD` to state facts about a pending visit by index. -/
def dummyVisit : Visit :=
  { children := [], driveName := "", folderName := "", categoryName := ""
    metadataProfileId := "", ownerId := "", folderPath := "", self := none }

/-- Run the `i`-th pending visit to completion: its body (the `forEach`,
which pushes child tokens, spawns child visits and appends records) followed
immediately — as the JS microtask queue guarantees — by its `.then` handler
(deregistration for a spawned visit, or setting up the completion poll for
the root call). -/
def applyVisit (s : St) (i : Nat) : St :=
  match s.pending.get? i with
  | none => s
  | some v =>
    let eff := processChildren v v.children
    let runs1 := s.runs ++ eff.1
    let files1 := s.files ++ eff.2.1
    let pending1 := s.pending.eraseIdx i ++ eff.2.2
    match v.self with
    | none =>
      { runs := runs1, files := files1, pending := pending1
        visited := s.visited, rootDone := true }
    | some t =>
      { runs := deregister runs1, files := files1, pending := pending1
        visited := s.visited ++ [t], rootDone := s.rootDone }

/-- One scheduling step: some pending visit's awaited listing resolves. -/
inductive Step : St → St → Prop
  | visit (s : St) (i : Nat) (h : (s.pending.get? i).isSome) : Step s (applyVisit s i)

/-- The initial state of one run started by `makeCsv` (index.html line 78):
empty `runs` and `files`, and the single root invocation
`getDriveFiles(driveId, driveName, "", rootCategory+">site>channels",
metadataProfileId, ownerId, "")` pending. -/
def initSt (rootChildren : List DriveTree)
    (driveName rootCategory metadataProfileId ownerId : String) : St :=
  { runs := []
    files := []
    pending := [{ children := rootChildren
                  driveName := driveName
                  folderName := ""
                  categoryName := rootCategory ++ ">site>channels"
                  metadataProfileId := metadataProfileId
                  ownerId := ownerId
                  folderPath := ""
                  self := none }]
    visited := []
    rootDone := false }

/-- Reachability under any scheduling of listing resolutions. -/
def Reach (s s' : St) : Prop :=
  Relation.ReflTransGen Step s s'

/-- Deterministic scheduler: always resolve the first pending visit.  Used
to exhibit concrete executions. -/
def stepFirst (s : St) : St :=
  applyVisit s 0

def runN : Nat → St → St
  | 0, s => s
  | n + 1, s => runN n (stepFirst s)

/-! ## CSV production (index.html lines 78-104) -/

/-- index.html line 86. -/
def headerLine : String :=
  "*title,description,tags,url,referenceId,contentType,category,creatorId,ownerId,metadataProfileId"

/-- The `metadataField_<name>` columns built at index.html lines 88-91. -/
def metadataColumns (metadataFieldNames : String) : List String :=
  ((splitOnChar ',' metadataFieldNames.data).map String.mk).map
    (fun f => "metadataField_" ++ f)

/-- `','.repeat(fieldsCount)`: the per-row loop at lines 96-98 appends one
comma per configured metadata field. -/
def commas (n : Nat) : String :=
  String.mk (List.replicate n ',')

/-- The CSV text built at index.html lines 86-100.  The source initializes
`csvData` with a byte-order mark and then immediately overwrites it with a
plain assignment (`csvData = headerLine + ...`, not `+=`), so the mark never
reaches the output; the shadowing `let` mirrors that. -/
def makeCsvText (files : List (List String)) (metadataFieldNames : String) : String :=
  let fieldsCount := (splitOnChar ',' metadataFieldNames.data).length
  let csvData := "\uFEFF"
  let csvData := headerLine ++ "," ++ joinComma (metadataColumns metadataFieldNames) ++ "\n"
  files.foldl (fun acc f => acc ++ arrayToCSVLine f ++ commas fieldsCount ++ "\n") csvData

/-- Outcome of one tick of the completion poll (index.html lines 79-103)
once it fires: nothing while tokens remain; otherwise either the single
terminal alert (when no records were collected) or the download hand-off. -/
inductive PollOutcome
  | keepWaiting
  | notice (msg : String)
  | download (content : String) (fileName : String)
deriving Repr

def pollCheck (runs : List String) (files : List (List String))
    (metadataFieldNames : String) : PollOutcome :=
  if runs.length = 0 then
    if files.length = 0 then PollOutcome.notice "could not list files"
    else PollOutcome.download (makeCsvText files metadataFieldNames) "bulk_upload.csv"
  else PollOutcome.keepWaiting

/-! ## A CSV reader, used to state properties of the produced text

Counting the "top-level" lines and fields of a CSV document needs a reader
that understands quoting: a double quote at the start of a field opens a
quoted region; inside it `""` is an escaped quote and commas and newlines
are literal text. -/

/-- Reader mode: at the start of a field, in the middle of an unquoted
field, inside a quoted region, or just past a double quote inside a quoted
region (which either escapes a quote or closes the region). -/
inductive CsvMode
  | fieldStart
  | mid
  | quo
  | quoClose
deriving DecidableEq, Repr

/-- Split a character stream into records of fields.  `f` accumulates the
current field (reversed), `r` the current record's finished fields
(reversed).  A newline outside quotes ends a record; end of input ends a
pending record unless the reader sits at the start of a fresh record. -/
def csvParseAux : CsvMode → List Char → List Char → List (List Char) →
    List (List (List Char))
  | m, [], f, r =>
    if m = CsvMode.fieldStart ∧ f = [] ∧ r = [] then []
    else [(f.reverse :: r).reverse]
  | .quo, c :: cs, f, r =>
    if c = '"' then csvParseAux .quoClose cs f r
    else csvParseAux .quo cs (c :: f) r
  | .quoClose, c :: cs, f, r =>
    if c = '"' then csvParseAux .quo cs ('"' :: f) r
    else if c = ',' then csvParseAux .fieldStart cs [] (f.reverse :: r)
    else if c = '\n' then (f.reverse :: r).reverse :: csvParseAux .fieldStart cs [] []
    else csvParseAux .mid cs (c :: f) r
  | .fieldStart, c :: cs, f, r =>
    if c = ',' then csvParseAux .fieldStart cs [] (f.reverse :: r)
    else if c = '\n' then (f.reverse :: r).reverse :: csvParseAux .fieldStart cs [] []
    else if c = '"' then csvParseAux .quo cs f r
    else csvParseAux .mid cs (c :: f) r
  | .mid, c :: cs, f, r =>
    if c = ',' then csvParseAux .fieldStart cs [] (f.reverse :: r)
    else if c = '\n' then (f.reverse :: r).reverse :: csvParseAux .fieldStart cs [] []
    else csvParseAux .mid cs (c :: f) r

/-- The records of a CSV text, each a list of field contents. -/
def csvParse (s : String) : List (List String) :=
  (csvParseAux .fieldStart s.data [] []).map (fun rec => rec.map String.mk)

/-- Concatenation of a list of strings (used to rephrase the fold that
builds the CSV body). -/
def concatStrings : List String → String
  | [] => ""
  | s :: ss => s ++ concatStrings ss

/-! ## Concrete inputs used for counterexamples and witnesses -/

/-- Shorthand for listing metadata. -/
def mkMeta (id name mime : String) (ow : List Owner) (desc : Option String) : FileMeta :=
  { id := id, name := name, mimeType := mime, owners := ow
    description := desc, fileExtension := none }

/-- An empty subfolder named A. -/
def exFolderA : DriveTree := .node (mkMeta "F1" "A" folderMime [] none) []

/-- An empty subfolder named B. -/
def exFolderB : DriveTree := .node (mkMeta "F2" "B" folderMime [] none) []

/-- The media file of the spec's walkthrough scenario living in subfolder A. -/
def exClip : DriveTree :=
  .node (mkMeta "I2" "clip.mp4" "video/mp4" [⟨"Ann", "ann@example.com"⟩] none) []

/-- The media file of the spec's walkthrough scenario living at the root. -/
def exImg : DriveTree :=
  .node (mkMeta "I1" "img.jpg" "image/jpeg" [⟨"Bob", "bob@example.com"⟩] none) []

/-- Subfolder A of the walkthrough scenario, containing `clip.mp4`. -/
def exFolderAClip : DriveTree := .node (mkMeta "F1" "A" folderMime [] none) [exClip]

/-- The walkthrough scenario of spec section 8: root contains subfolder A
and `img.jpg`; A contains `clip.mp4`. -/
def exScenario : St := initSt [exFolderAClip, exImg] "Drive" "Cat" "MP" "OWN"

/-- Two empty sibling subfolders under the root. -/
def exTwoFolders : St := initSt [exFolderA, exFolderB] "Drive" "Cat" "MP" "OWN"

/-- A single empty subfolder under the root. -/
def exOneFolder : St := initSt [exFolderA] "Drive" "Cat" "MP" "OWN"

/-- An entry whose mime type contains `image/` without beginning with it. -/
def exOddMime : DriveTree :=
  .node (mkMeta "I9" "odd" "x-image/png" [⟨"Eve", "eve@example.com"⟩] none) []

/-- A visit context used to exercise `entryEffect` directly. -/
def exVisit : Visit :=
  { children := [exOddMime], driveName := "Drive", folderName := "root"
    categoryName := "Cat>site>channels", metadataProfileId := "MP"
    ownerId := "OWN", folderPath := "", self := none }

/-- The record `entryEffect exVisit exClip` produces. -/
def exClipRecord : List String :=
  ["clip.mp4", "By Ann in root. \n", "",
   "https://drive.google.com/uc?export=download&id=I2", "I2", "Video",
   "Cat>site>channels>Drive ", "ann@example.com", "OWN", "MP"]

/-- A media file whose name starts with a double quote; its record defeats
any top-level reading of the produced CSV line. -/
def exQuoteFile : DriveTree :=
  .node (mkMeta "I7" "\"x" "image/jpeg" [⟨"Bob", "bob@example.com"⟩] none) []

/-- A drive whose root holds only that file. -/
def exQuoteScenario : St := initSt [exQuoteFile] "Drive" "Cat" "MP" "OWN"

/-- Ghost accounting for the completion argument: the folder nodes a pending
visit is still responsible for — its own folder (for a spawned visit) plus
every folder below the listing it is about to process. -/
def Visit.charge (v : Visit) : List DriveTree :=
  (match v.self with
   | some t => [t]
   | none => []) ++ folderForest v.children

/-- A character that neither ends a CSV field nor opens a quoted region. -/
def plainChar (c : Char) : Prop :=
  c ≠ ',' ∧ c ≠ '\n' ∧ c ≠ '"'

instance (c : Char) : Decidable (plainChar c) :=
  inferInstanceAs (Decidable (c ≠ ',' ∧ c ≠ '\n' ∧ c ≠ '"'))

/-- The field shapes the serializer emits (for values free of double
quotes): a run of plain characters, or a quoted block whose inside has no
double quote. -/
inductive GoodField : List Char → Prop
  | plain (w : List Char) (hw : ∀ c ∈ w, plainChar c) : GoodField w
  | quoted (inner : List Char) (hi : ∀ c ∈ inner, c ≠ '"') :
      GoodField ('"' :: inner ++ ['"'])

/-- Comma-join of raw fields at the character level. -/
def joinWithComma : List (List Char) → List Char
  | [] => []
  | [w] => w
  | w :: ws => w ++ ',' :: joinWithComma ws

/-- The ten fixed header columns of `headerLine`, as character lists. -/
def headerFields : List (List Char) :=
  ["*title".data, "description".data, "tags".data, "url".data,
   "referenceId".data, "contentType".data, "category".data, "creatorId".data,
   "ownerId".data, "metadataProfileId".data]

/-! ## Helper lemmas -/

theorem includesChar_append (a b : String) (c : Char) :
    includesChar (a ++ b) c = (includesChar a c || includesChar b c) := by
  simp [includesChar, String.data_append]

theorem count_quote_flatten (l : List Char) :
    ((l.map (fun c => if c = '"' then ['"', '"'] else [c])).flatten).count '"'
      = 2 * l.count '"' := by
  induction l with
  | nil => simp
  | cons c cs ih =>
    by_cases hc : c = '"' <;>
      simp [hc, ih, List.count_cons, List.count_append, Nat.mul_add]

theorem countChar_escapeDoubleQuotes (s : String) :
    countChar (escapeDoubleQuotes s) '"' = 2 * countChar s '"' := by
  simpa [countChar, escapeDoubleQuotes] using count_quote_flatten s.data

/-- `runs.indexOf(undefined)` on an array of strings is always `-1`:
no string is strictly equal to `undefined`. -/
theorem jsIndexOf_undef_of_strings (l : List String) :
    jsIndexOf (l.map JSVal.str) JSVal.undef = -1 := by
  unfold jsIndexOf
  have h : (l.map JSVal.str).findIdx? (· == JSVal.undef) = none := by
    rw [List.findIdx?_eq_none_iff]
    intro x hx
    rcases List.mem_map.mp hx with ⟨s, _, rfl⟩
    rfl
  rw [h]

/-- `splice(-1, 1)` removes the last element. -/
theorem jsSpliceRemove1_neg_one (l : List String) :
    jsSpliceRemove1 l (-1) = l.dropLast := by
  unfold jsSpliceRemove1
  have h1 : jsSpliceStart l.length (-1) = l.length - 1 := by
    unfold jsSpliceStart
    rw [if_pos (by omega)]
    rcases Nat.eq_zero_or_pos l.length with h | h
    · rw [h]; rfl
    · have hx : max ((l.length : Int) + (-1)) 0 = (l.length : Int) - 1 := by omega
      rw [hx]; omega
  rw [h1]
  have h2 : l.drop (l.length - 1 + 1) = [] := by
    apply List.drop_eq_nil_of_le
    omega
  rw [h2, List.append_nil, List.dropLast_eq_take]

/-- The deregistration handler always removes exactly the last token. -/
theorem deregister_eq_dropLast (l : List String) :
    deregister l = l.dropLast := by
  unfold deregister
  rw [jsIndexOf_undef_of_strings, jsSpliceRemove1_neg_one]

/-! ## C4 — quoting of serialized fields -/

/-- C4 counterexample: the field value a"b contains a literal double quote,
yet the serializer emits it verbatim — not wrapped in quotes and with the
quote not doubled — because it contains neither a comma nor a newline.
This refutes the claim that any field containing a double quote yields that
quote doubled inside a quoted field. -/
theorem c4_counterexample :
    arrayToCSVLine ["a\"b"] = "a\"b" ∧ includesChar "a\"b" '"' = true := by
  constructor
  · rfl
  · decide

/-- C4 (amended): a string field is wrapped in double quotes exactly when it
contains a comma or a newline, and only then are its internal double quotes
doubled; the doubling is total — the escaped text carries twice as many
double quotes as the original.  A double quote in a field without a comma or
newline is emitted verbatim. -/
theorem c4_quoting_amended (value : String) :
    csvSafe value = (if includesChar value ',' || includesChar value '\n' then
        "\"" ++ escapeDoubleQuotes value ++ "\"" else value)
    ∧ countChar (escapeDoubleQuotes value) '"' = 2 * countChar value '"' := by
  exact ⟨rfl, countChar_escapeDoubleQuotes value⟩

/-! ## C8 — empty result drains to a single notice -/

/-- C8: when the pending-token list has drained and no records were
collected, the poll raises the single terminal notice "could not list
files" and hands nothing to the download collaborator. -/
theorem c8_empty_drain_notice (metadataFieldNames : String) :
    pollCheck [] [] metadataFieldNames = PollOutcome.notice "could not list files"
    ∧ ∀ content fileName,
        pollCheck [] [] metadataFieldNames ≠ PollOutcome.download content fileName := by
  refine ⟨rfl, fun content fileName h => ?_⟩
  simp [pollCheck] at h

/-! ## C7 — the byte-order mark never reaches the output -/

/-- C7 (code bug): the source initializes `csvData` to a byte-order mark
but then overwrites it with `csvData = headerLine + ...` (an assignment
where an append was intended), so the produced text starts with the
header's asterisk and contains no byte-order mark anywhere.  Evaluated here
on the walkthrough scenario's traversal output. -/
theorem c7_counterexample :
    (makeCsvText (runN 2 exScenario).files "fld1").data.head? = some '*'
    ∧ '﻿' ∉ (makeCsvText (runN 2 exScenario).files "fld1").data := by
  constructor
  · rfl
  · decide

/-! ## C6 — mime-type filtering -/

/-- C6 counterexample: an entry with mime type x-image/png — which contains
`image/` but does not begin with `image/`, `audio/` or `video/` — still
produces exactly one record, because the source tests `indexOf(...) > -1`
(containment), not the string's beginning. -/
theorem c6_counterexample :
    (entryEffect exVisit exOddMime).2.1.length = 1
    ∧ startsWithChars "x-image/png".data "image/".data = false
    ∧ startsWithChars "x-image/png".data "audio/".data = false
    ∧ startsWithChars "x-image/png".data "video/".data = false := by
  refine ⟨rfl, by decide, by decide, by decide⟩

/-- C6 (amended): processing one listed entry appends exactly one record if
and only if the entry's mime type is not the folder mime type and contains
`image/`, `audio/` or `video/` as a substring; otherwise it appends none. -/
theorem c6_media_filter_amended (v : Visit) (m : FileMeta) (cs : List DriveTree) :
    ((entryEffect v (.node m cs)).2.1.length = 1
      ↔ m.mimeType ≠ folderMime
          ∧ (hasSubstr m.mimeType "image/" = true ∨ hasSubstr m.mimeType "audio/" = true
             ∨ hasSubstr m.mimeType "video/" = true))
    ∧ ((entryEffect v (.node m cs)).2.1.length = 1
        ∨ (entryEffect v (.node m cs)).2.1.length = 0) := by
  by_cases h1 : m.mimeType == folderMime
  · have he : m.mimeType = folderMime := by
      exact eq_of_beq h1
    simp [entryEffect, h1, he]
  · by_cases h2 : (hasSubstr m.mimeType "image/" || hasSubstr m.mimeType "audio/"
        || hasSubstr m.mimeType "video/")
    · have hne : m.mimeType ≠ folderMime := by
        intro he; rw [he] at h1; simp at h1
      have h2' := h2
      rw [Bool.or_eq_true, Bool.or_eq_true] at h2'
      simp only [entryEffect, h1, Bool.false_eq_true, if_false, h2, if_true]
      constructor
      · constructor
        · intro _; exact ⟨hne, by tauto⟩
        · intro _; rfl
      · left; rfl
    · have h2' := h2
      rw [Bool.or_eq_true, Bool.or_eq_true] at h2'
      push_neg at h2'
      simp only [entryEffect, h1, Bool.false_eq_true, if_false, h2, if_true]
      constructor
      · constructor
        · intro hlen; simp at hlen
        · intro ⟨hne, hor⟩
          exact absurd hor (by tauto)
      · right; rfl

/-! ## C10 — the record's description field -/

/-- C10: every record created by the traversal carries the description
"By " + first owner's display name + " in " + parent folder's name + ". "
followed by a newline and the entry's description (defaulted to empty);
since it always contains a newline, the serializer always emits it as a
quoted field. -/
theorem c10_description (v : Visit) (m : FileMeta) (cs : List DriveTree)
    (o : Owner) (os : List Owner) (ho : m.owners = o :: os)
    (f : List String) (hf : f ∈ (entryEffect v (.node m cs)).2.1) :
    f.get? 1 = some ("By " ++ o.displayName ++ " in " ++ v.folderName ++ ". \n"
       ++ m.description.getD "")
    ∧ ∀ d, f.get? 1 = some d →
        includesChar d '\n' = true
        ∧ csvSafe d = "\"" ++ escapeDoubleQuotes d ++ "\"" := by
  simp only [entryEffect] at hf
  by_cases h1 : m.mimeType == folderMime
  · rw [if_pos h1] at hf
    simp at hf
  · rw [if_neg h1] at hf
    by_cases h2 : (hasSubstr m.mimeType "image/" || hasSubstr m.mimeType "audio/"
        || hasSubstr m.mimeType "video/")
    · rw [if_pos h2] at hf
      simp only [List.mem_singleton] at hf
      subst hf
      rw [ho]
      refine ⟨rfl, fun d hd => ?_⟩
      simp only [List.get?] at hd
      have hd' : d = "By " ++ o.displayName ++ " in " ++ v.folderName ++ ". \n"
          ++ m.description.getD "" := by
        exact (Option.some.inj hd).symm
      subst hd'
      have hnl : includesChar ("By " ++ o.displayName ++ " in " ++ v.folderName
          ++ ". \n" ++ m.description.getD "") '\n' = true := by
        simp only [includesChar_append]
        have : includesChar ". \n" '\n' = true := by decide
        rw [this]
        simp
      refine ⟨hnl, ?_⟩
      unfold csvSafe
      rw [hnl]
      simp
    · rw [if_neg h2] at hf
      simp at hf

end GD

namespace GD

/-! ## Structural lemmas about one listing pass -/

theorem entryEffect_keys_spawn_len (v : Visit) (t : DriveTree) :
    (entryEffect v t).1.length = (entryEffect v t).2.2.length := by
  cases t with
  | node m cs =>
    simp only [entryEffect]
    split
    · rfl
    · split <;> rfl

theorem entryEffect_spawn_charge (v : Visit) (t : DriveTree) :
    ((entryEffect v t).2.2.map Visit.charge).flatten = folderForestT t := by
  cases t with
  | node m cs =>
    simp only [entryEffect, folderForestT]
    split
    · simp [Visit.charge]
    · split <;> simp

theorem entryEffect_spawn_nonroot (v : Visit) (t : DriveTree) :
    ∀ w ∈ (entryEffect v t).2.2, w.isRoot = false := by
  cases t with
  | node m cs =>
    simp only [entryEffect]
    split
    · intro w hw
      simp only [List.mem_singleton] at hw
      subst hw
      rfl
    · split <;> intro w hw <;> simp at hw

theorem entryEffect_rec_len (v : Visit) (t : DriveTree) :
    ∀ f ∈ (entryEffect v t).2.1, f.length = 10 := by
  cases t with
  | node m cs =>
    simp only [entryEffect]
    split
    · intro f hf; simp at hf
    · split
      · intro f hf
        simp only [List.mem_singleton] at hf
        subst hf
        rfl
      · intro f hf; simp at hf

theorem processChildren_keys_spawn_len (v : Visit) (ts : List DriveTree) :
    (processChildren v ts).1.length = (processChildren v ts).2.2.length := by
  induction ts with
  | nil => rfl
  | cons t ts ih =>
    simp only [processChildren, List.length_append, ih, entryEffect_keys_spawn_len]

theorem processChildren_spawn_charge (v : Visit) (ts : List DriveTree) :
    ((processChildren v ts).2.2.map Visit.charge).flatten = folderForest ts := by
  induction ts with
  | nil => rfl
  | cons t ts ih =>
    simp only [processChildren, List.map_append, List.flatten_append, ih,
      entryEffect_spawn_charge, folderForest]

theorem processChildren_spawn_nonroot (v : Visit) (ts : List DriveTree) :
    ∀ w ∈ (processChildren v ts).2.2, w.isRoot = false := by
  induction ts with
  | nil => intro w hw; simp [processChildren] at hw
  | cons t ts ih =>
    intro w hw
    simp only [processChildren, List.mem_append] at hw
    rcases hw with hw | hw
    · exact entryEffect_spawn_nonroot v t w hw
    · exact ih w hw

theorem processChildren_rec_len (v : Visit) (ts : List DriveTree) :
    ∀ f ∈ (processChildren v ts).2.1, f.length = 10 := by
  induction ts with
  | nil => intro f hf; simp [processChildren] at hf
  | cons t ts ih =>
    intro f hf
    simp only [processChildren, List.mem_append] at hf
    rcases hf with hf | hf
    · exact entryEffect_rec_len v t f hf
    · exact ih f hf

/-- Unfolding of `applyVisit` when the scheduled index is populated. -/
theorem applyVisit_some (s : St) (i : Nat) (v : Visit)
    (hv : s.pending.get? i = some v) :
    applyVisit s i =
      (match v.self with
       | none =>
         { runs := s.runs ++ (processChildren v v.children).1
           files := s.files ++ (processChildren v v.children).2.1
           pending := s.pending.eraseIdx i ++ (processChildren v v.children).2.2
           visited := s.visited, rootDone := true }
       | some t =>
         { runs := deregister (s.runs ++ (processChildren v v.children).1)
           files := s.files ++ (processChildren v v.children).2.1
           pending := s.pending.eraseIdx i ++ (processChildren v v.children).2.2
           visited := s.visited ++ [t], rootDone := s.rootDone }) := by
  unfold applyVisit
  rw [hv]

/-- A list is a permutation of the picked element consed on the remainder. -/
theorem perm_cons_eraseIdx (l : List α) (i : Nat) (a : α)
    (h : l.get? i = some a) : l.Perm (a :: l.eraseIdx i) := by
  induction l generalizing i with
  | nil => simp at h
  | cons x xs ih =>
    cases i with
    | zero =>
      simp only [List.get?] at h
      cases h
      simp [List.eraseIdx]
    | succ n =>
      simp only [List.get?] at h
      have h2 := ih n h
      have h3 : (x :: xs).eraseIdx (n + 1) = x :: xs.eraseIdx n := rfl
      rw [h3]
      exact List.Perm.trans (List.Perm.cons x h2) (List.Perm.swap a x _)

/-! ## The traversal invariant -/

/-- The inductive invariant of the traversal: the token count matches the
number of pending spawned (non-root) visits; exactly one root invocation is
pending until it resolves; the visited folders together with the folders
the pending visits are still responsible for are exactly the folder nodes
of the tree; and every accumulated record has the ten core columns. -/
structure Inv (cs0 : List DriveTree) (s : St) : Prop where
  runsLen : s.runs.length = s.pending.countP (fun w => !w.isRoot)
  rootCnt : s.pending.countP (fun w => w.isRoot) = (if s.rootDone then 0 else 1)
  perm : (s.visited ++ (s.pending.map Visit.charge).flatten).Perm (folderForest cs0)
  recLen : ∀ f ∈ s.files, f.length = 10

theorem inv_init (cs0 : List DriveTree) (dn rc mp oi : String) :
    Inv cs0 (initSt cs0 dn rc mp oi) := by
  refine ⟨rfl, rfl, ?_, ?_⟩
  · simp [initSt, Visit.charge]
  · intro f hf
    simp [initSt] at hf

theorem inv_applyVisit (cs0 : List DriveTree) (s : St) (i : Nat)
    (hInv : Inv cs0 s) (hsome : (s.pending.get? i).isSome) :
    Inv cs0 (applyVisit s i) := by
  obtain ⟨v, hv⟩ := Option.isSome_iff_exists.mp hsome
  have hmem : v ∈ s.pending := List.get?_mem hv
  have hperm : s.pending.Perm (v :: s.pending.eraseIdx i) := perm_cons_eraseIdx _ i v hv
  have hklen := processChildren_keys_spawn_len v v.children
  have hcharge := processChildren_spawn_charge v v.children
  have hnonroot := processChildren_spawn_nonroot v v.children
  have hreclen := processChildren_rec_len v v.children
  have happ := applyVisit_some s i v hv
  have hspawn_nr : (processChildren v v.children).2.2.countP (fun w => !w.isRoot)
      = (processChildren v v.children).2.2.length := by
    rw [List.countP_eq_length]
    intro w hw
    rw [hnonroot w hw]
    rfl
  have hspawn_r : (processChildren v v.children).2.2.countP (fun w => w.isRoot) = 0 := by
    rw [List.countP_eq_zero]
    intro w hw
    rw [hnonroot w hw]
    simp
  cases hself : v.self with
  | none =>
    -- the resolving visit is the root invocation
    have hvr : v.isRoot = true := by simp [Visit.isRoot, hself]
    have hcnt_nr : s.pending.countP (fun w => !w.isRoot)
        = (s.pending.eraseIdx i).countP (fun w => !w.isRoot) := by
      rw [hperm.countP_eq]
      simp [List.countP_cons, hvr]
    have hcnt_r : s.pending.countP (fun w => w.isRoot)
        = 1 + (s.pending.eraseIdx i).countP (fun w => w.isRoot) := by
      rw [hperm.countP_eq]
      simp [List.countP_cons, hvr, Nat.add_comm]
    have hRootFalse : s.rootDone = false := by
      by_contra hrd
      rw [Bool.not_eq_false] at hrd
      have := hInv.rootCnt
      rw [hrd, if_pos rfl] at this
      omega
    rw [happ, hself]
    refine ⟨?_, ?_, ?_, ?_⟩
    · simp only [List.length_append, List.countP_append, hspawn_nr]
      rw [hInv.runsLen, hcnt_nr, hklen]
    · have h5 := hInv.rootCnt
      rw [hRootFalse, hcnt_r] at h5
      have h5' : (s.pending.eraseIdx i).countP (fun w => w.isRoot) = 0 := by
        simp only [Bool.false_eq_true, if_false] at h5
        omega
      rw [List.countP_append, h5', hspawn_r]
      simp
    · have hchv : Visit.charge v = folderForest v.children := by
        simp [Visit.charge, hself]
      rw [List.map_append, List.flatten_append, hcharge]
      refine List.Perm.trans (List.Perm.append_left _ List.perm_append_comm) ?_
      refine List.Perm.trans (List.Perm.append_left s.visited ?_) hInv.perm
      have h6 := (hperm.map Visit.charge).flatten
      rw [List.map_cons, List.flatten_cons, hchv] at h6
      exact h6.symm
    · intro f hf
      simp only [List.mem_append] at hf
      rcases hf with hf | hf
      · exact hInv.recLen f hf
      · exact hreclen f hf
  | some t =>
    -- a spawned subfolder visit resolves and deregisters the final token
    have hvr : v.isRoot = false := by simp [Visit.isRoot, hself]
    have hcnt_nr : s.pending.countP (fun w => !w.isRoot)
        = 1 + (s.pending.eraseIdx i).countP (fun w => !w.isRoot) := by
      rw [hperm.countP_eq]
      simp [List.countP_cons, hvr, Nat.add_comm]
    have hcnt_r : s.pending.countP (fun w => w.isRoot)
        = (s.pending.eraseIdx i).countP (fun w => w.isRoot) := by
      rw [hperm.countP_eq]
      simp [List.countP_cons, hvr]
    have hlen_pos : 1 ≤ (s.runs ++ (processChildren v v.children).1).length := by
      rw [List.length_append, hInv.runsLen, hcnt_nr]
      omega
    rw [happ, hself]
    refine ⟨?_, ?_, ?_, ?_⟩
    · rw [deregister_eq_dropLast, List.length_dropLast]
      simp only [List.length_append, List.countP_append, hspawn_nr]
      rw [hInv.runsLen, hcnt_nr, hklen]
      omega
    · simp only [List.countP_append, hspawn_r]
      rw [← hcnt_r, hInv.rootCnt]
      omega
    · have hchv : Visit.charge v = t :: folderForest v.children := by
        simp [Visit.charge, hself]
      rw [List.map_append, List.flatten_append, hcharge, List.append_assoc]
      refine List.Perm.trans
        (List.Perm.append_left _ (List.Perm.cons t
          (@List.perm_append_comm _ ((List.map Visit.charge (s.pending.eraseIdx i)).flatten)
            (folderForest v.children)))) ?_
      refine List.Perm.trans (List.Perm.append_left s.visited ?_) hInv.perm
      have h6 := (hperm.map Visit.charge).flatten
      rw [List.map_cons, List.flatten_cons, hchv] at h6
      exact h6.symm
    · intro f hf
      simp only [List.mem_append] at hf
      rcases hf with hf | hf
      · exact hInv.recLen f hf
      · exact hreclen f hf

theorem inv_step {cs0 : List DriveTree} {s s' : St}
    (hInv : Inv cs0 s) (h : Step s s') : Inv cs0 s' := by
  cases h with
  | visit i hi => exact inv_applyVisit cs0 s i hInv hi

theorem inv_reach {cs0 : List DriveTree} {dn rc mp oi : String} {s : St}
    (h : Reach (initSt cs0 dn rc mp oi) s) : Inv cs0 s := by
  induction h with
  | refl => exact inv_init cs0 dn rc mp oi
  | tail hab hbc ih => exact inv_step ih hbc

end GD

namespace GD

/-! ## Reachability of the deterministic scheduler -/

theorem reach_stepFirst (s : St) : Reach s (stepFirst s) := by
  cases hp : s.pending.get? 0 with
  | none =>
    have hid : stepFirst s = s := by
      unfold stepFirst applyVisit
      rw [hp]
    rw [hid]
    exact Relation.ReflTransGen.refl
  | some v =>
    exact Relation.ReflTransGen.single (Step.visit s 0 (by rw [hp]; rfl))

theorem reach_runN (n : Nat) (s : St) : Reach s (runN n s) := by
  induction n generalizing s with
  | zero => exact Relation.ReflTransGen.refl
  | succ n ih =>
    exact Relation.ReflTransGen.trans (reach_stepFirst s) (ih (stepFirst s))

/-- Splitting a pending list into root and spawned visits. -/
theorem countP_split_root (l : List Visit) :
    l.length = l.countP (fun w => w.isRoot) + l.countP (fun w => !w.isRoot) := by
  induction l with
  | nil => rfl
  | cons x xs ih =>
    simp only [List.countP_cons, List.length_cons, ih]
    cases hx : x.isRoot <;> simp <;> omega

theorem get?_eq_some_getD (l : List α) (i : Nat) (d : α) (h : i < l.length) :
    l.get? i = some (l.getD i d) := by
  induction l generalizing i with
  | nil => simp at h
  | cons x xs ih =>
    cases i with
    | zero => rfl
    | succ n => exact ih n (by simpa using h)

/-- The effect of a resolving spawned (non-root) visit on the token list:
the deregistration removes exactly the final token, so the count drops by
exactly one. -/
theorem nonroot_resolution_spec (cs0 : List DriveTree) (dn rc mp oi : String)
    (s : St) (hre : Reach (initSt cs0 dn rc mp oi) s) (i : Nat)
    (hlt : i < s.pending.length)
    (hnr : (s.pending.getD i dummyVisit).isRoot = false) :
    (applyVisit s i).runs
      = (s.runs ++ (processChildren (s.pending.getD i dummyVisit)
          (s.pending.getD i dummyVisit).children).1).dropLast
    ∧ (applyVisit s i).runs.length + 1
      = s.runs.length + (processChildren (s.pending.getD i dummyVisit)
          (s.pending.getD i dummyVisit).children).1.length := by
  have hInv := inv_reach hre
  have hv : s.pending.get? i = some (s.pending.getD i dummyVisit) :=
    get?_eq_some_getD s.pending i dummyVisit hlt
  have hmem : s.pending.getD i dummyVisit ∈ s.pending := List.get?_mem hv
  obtain ⟨t, hts⟩ : ∃ t, (s.pending.getD i dummyVisit).self = some t := by
    cases hvs : (s.pending.getD i dummyVisit).self with
    | none =>
      exfalso
      have hbad : (s.pending.getD i dummyVisit).isRoot = true := by
        unfold Visit.isRoot
        rw [hvs]
        rfl
      rw [hbad] at hnr
      cases hnr
    | some t => exact ⟨t, rfl⟩
  have happ := applyVisit_some s i (s.pending.getD i dummyVisit) hv
  rw [hts] at happ
  have hrw : (applyVisit s i).runs
      = deregister (s.runs ++ (processChildren (s.pending.getD i dummyVisit)
          (s.pending.getD i dummyVisit).children).1) := by
    rw [happ]
  rw [hrw, deregister_eq_dropLast]
  refine ⟨rfl, ?_⟩
  have hpos : 0 < s.pending.countP (fun w => !w.isRoot) := by
    rw [List.countP_pos_iff]
    exact ⟨s.pending.getD i dummyVisit, hmem, by rw [hnr]; rfl⟩
  have hrl := hInv.runsLen
  rw [List.length_dropLast, List.length_append]
  omega

/-! ## C2 — drained tokens mean a complete traversal -/

/-- C2: once the root invocation has resolved (and no listing ever fails —
in this model every pending visit can be scheduled), a reachable state has
an empty token list exactly when the folder nodes of the tree have each
been listed exactly once (the bookkeeping `visited` log is a permutation of
the tree's folder nodes, each node appearing the one time the log records
its resolution). -/
theorem c2_drained_iff_visited (cs0 : List DriveTree) (dn rc mp oi : String)
    (s : St) (hre : Reach (initSt cs0 dn rc mp oi) s) (hroot : s.rootDone = true) :
    s.runs = [] ↔ s.visited.Perm (folderForest cs0) := by
  have hInv : Inv cs0 s := inv_reach hre
  constructor
  · intro hr
    have h1 : s.pending.countP (fun w => !w.isRoot) = 0 := by
      rw [← hInv.runsLen, hr]
      rfl
    have h2 : s.pending.countP (fun w => w.isRoot) = 0 := by
      rw [hInv.rootCnt, hroot]
      rfl
    have h4 := countP_split_root s.pending
    have h5 : s.pending = [] := List.length_eq_zero.mp (by omega)
    have h6 := hInv.perm
    rw [h5] at h6
    simpa using h6
  · intro hvperm
    have hlen := hInv.perm.length_eq
    rw [List.length_append] at hlen
    have hveq := hvperm.length_eq
    have hfl : (s.pending.map Visit.charge).flatten = [] :=
      List.length_eq_zero.mp (by omega)
    have hnr : s.pending.countP (fun w => !w.isRoot) = 0 := by
      rw [List.countP_eq_zero]
      intro w hw
      cases hws : w.self with
      | none => simp [Visit.isRoot, hws]
      | some t =>
        intro _
        have hchw : Visit.charge w ∈ s.pending.map Visit.charge :=
          List.mem_map_of_mem _ hw
        have hemp : Visit.charge w = [] := by
          rw [List.flatten_eq_nil_iff] at hfl
          exact hfl _ hchw
        simp [Visit.charge, hws] at hemp
    have h7 : s.runs.length = 0 := by rw [hInv.runsLen, hnr]
    exact List.length_eq_zero.mp h7

/-- C2 witness: the one-subfolder drive, scheduled to completion (root
listing, then the subfolder's listing). -/
theorem c2_drained_iff_visited_witness :
    Reach (initSt [exFolderA] "Drive" "Cat" "MP" "OWN") (runN 2 exOneFolder)
    ∧ (runN 2 exOneFolder).rootDone = true
    ∧ ((runN 2 exOneFolder).runs = []
        ↔ (runN 2 exOneFolder).visited.Perm (folderForest [exFolderA])) :=
  ⟨reach_runN 2 exOneFolder, rfl,
   c2_drained_iff_visited [exFolderA] "Drive" "Cat" "MP" "OWN"
     (runN 2 exOneFolder) (reach_runN 2 exOneFolder) rfl⟩

/-! ## C9 — every resolution removes the most recent token -/

/-- C9: the resolved value of a spawned visit is `undefined`, so the
handler's `indexOf` over the string-valued token list yields -1 and the
`splice(-1, 1)` removes the final element; each resolution therefore
shrinks the token list by exactly one, regardless of the token values (in
particular even when two folders compute identical tokens). -/
theorem c9_resolution_removes_last (cs0 : List DriveTree) (dn rc mp oi : String)
    (s : St) (hre : Reach (initSt cs0 dn rc mp oi) s) (i : Nat)
    (hlt : i < s.pending.length)
    (hnr : (s.pending.getD i dummyVisit).isRoot = false) :
    jsIndexOf ((s.runs ++ (processChildren (s.pending.getD i dummyVisit)
          (s.pending.getD i dummyVisit).children).1).map JSVal.str) JSVal.undef = -1
    ∧ (applyVisit s i).runs
        = (s.runs ++ (processChildren (s.pending.getD i dummyVisit)
            (s.pending.getD i dummyVisit).children).1).dropLast
    ∧ (applyVisit s i).runs.length + 1
        = s.runs.length + (processChildren (s.pending.getD i dummyVisit)
            (s.pending.getD i dummyVisit).children).1.length :=
  ⟨jsIndexOf_undef_of_strings _,
   (nonroot_resolution_spec cs0 dn rc mp oi s hre i hlt hnr).1,
   (nonroot_resolution_spec cs0 dn rc mp oi s hre i hlt hnr).2⟩

/-- C9 witness: the one-subfolder drive right after the root listing, when
the single spawned visit for subfolder A is pending. -/
theorem c9_resolution_removes_last_witness :
    Reach (initSt [exFolderA] "Drive" "Cat" "MP" "OWN") (runN 1 exOneFolder)
    ∧ 0 < (runN 1 exOneFolder).pending.length
    ∧ ((runN 1 exOneFolder).pending.getD 0 dummyVisit).isRoot = false
    ∧ (jsIndexOf (((runN 1 exOneFolder).runs
          ++ (processChildren ((runN 1 exOneFolder).pending.getD 0 dummyVisit)
              ((runN 1 exOneFolder).pending.getD 0 dummyVisit).children).1).map
            JSVal.str) JSVal.undef = -1
       ∧ (applyVisit (runN 1 exOneFolder) 0).runs
          = ((runN 1 exOneFolder).runs
              ++ (processChildren ((runN 1 exOneFolder).pending.getD 0 dummyVisit)
                  ((runN 1 exOneFolder).pending.getD 0 dummyVisit).children).1).dropLast
       ∧ (applyVisit (runN 1 exOneFolder) 0).runs.length + 1
          = (runN 1 exOneFolder).runs.length
              + (processChildren ((runN 1 exOneFolder).pending.getD 0 dummyVisit)
                  ((runN 1 exOneFolder).pending.getD 0 dummyVisit).children).1.length) :=
  ⟨reach_runN 1 exOneFolder, by decide, by decide,
   c9_resolution_removes_last [exFolderA] "Drive" "Cat" "MP" "OWN"
     (runN 1 exOneFolder) (reach_runN 1 exOneFolder) 0 (by decide) (by decide)⟩

/-! ## C1 — which token does a resolution remove? -/

/-- C1 counterexample: the root lists subfolders A then B, registering
token(A) and token(B); A's listing then resolves first.  Afterwards A has
been visited, yet the token list still holds token(A) — the element removed
was token(B), the last one, although B's visit is still pending.  So the
deregistration does not remove the token registered for the resolved
subfolder. -/
theorem c1_counterexample :
    (runN 2 exTwoFolders).visited = [exFolderA]
    ∧ (runN 2 exTwoFolders).runs = [btoaUnescapeEncodeURIComponent " - A"]
    ∧ btoaUnescapeEncodeURIComponent " - A" ≠ btoaUnescapeEncodeURIComponent " - B"
    ∧ (runN 2 exTwoFolders).pending.length = 1
    ∧ ((runN 2 exTwoFolders).pending.getD 0 dummyVisit).folderName = "B" := by
  refine ⟨rfl, by decide, by decide, by decide, by decide⟩

/-- C1 (amended): for every discovered subfolder exactly one token is
registered and one visit is spawned, the registration happening at
discovery, before the subfolder's listing can run; when a spawned visit
resolves, exactly one token is removed — the final element of the token
list at that moment, which need not be the token registered for the
resolved subfolder. -/
theorem c1_register_remove_amended (cs0 : List DriveTree) (dn rc mp oi : String)
    (s : St) (hre : Reach (initSt cs0 dn rc mp oi) s) (i : Nat)
    (hlt : i < s.pending.length)
    (hnr : (s.pending.getD i dummyVisit).isRoot = false)
    (v : Visit) (m : FileMeta) (cs : List DriveTree)
    (hfold : (m.mimeType == folderMime) = true) :
    ((entryEffect v (.node m cs)).1
        = [btoaUnescapeEncodeURIComponent (v.folderPath ++ " - " ++ m.name)]
      ∧ (entryEffect v (.node m cs)).2.2.length = 1)
    ∧ ((applyVisit s i).runs
        = (s.runs ++ (processChildren (s.pending.getD i dummyVisit)
            (s.pending.getD i dummyVisit).children).1).dropLast
      ∧ (applyVisit s i).runs.length + 1
        = s.runs.length + (processChildren (s.pending.getD i dummyVisit)
            (s.pending.getD i dummyVisit).children).1.length) := by
  constructor
  · constructor
    · simp [entryEffect, hfold]
    · simp [entryEffect, hfold]
  · exact nonroot_resolution_spec cs0 dn rc mp oi s hre i hlt hnr

/-- C1 witness: concrete instantiation of the amended statement on the
one-subfolder drive after the root listing. -/
theorem c1_register_remove_amended_witness :
    Reach (initSt [exFolderA] "Drive" "Cat" "MP" "OWN") (runN 1 exOneFolder)
    ∧ 0 < (runN 1 exOneFolder).pending.length
    ∧ ((runN 1 exOneFolder).pending.getD 0 dummyVisit).isRoot = false
    ∧ ((mkMeta "F1" "A" folderMime [] none).mimeType == folderMime) = true
    ∧ (((entryEffect exVisit (.node (mkMeta "F1" "A" folderMime [] none) [])).1
          = [btoaUnescapeEncodeURIComponent (exVisit.folderPath ++ " - "
              ++ (mkMeta "F1" "A" folderMime [] none).name)]
        ∧ (entryEffect exVisit (.node (mkMeta "F1" "A" folderMime [] none) [])).2.2.length = 1)
       ∧ ((applyVisit (runN 1 exOneFolder) 0).runs
            = ((runN 1 exOneFolder).runs
                ++ (processChildren ((runN 1 exOneFolder).pending.getD 0 dummyVisit)
                    ((runN 1 exOneFolder).pending.getD 0 dummyVisit).children).1).dropLast
          ∧ (applyVisit (runN 1 exOneFolder) 0).runs.length + 1
            = (runN 1 exOneFolder).runs.length
                + (processChildren ((runN 1 exOneFolder).pending.getD 0 dummyVisit)
                    ((runN 1 exOneFolder).pending.getD 0 dummyVisit).children).1.length)) :=
  ⟨reach_runN 1 exOneFolder, by decide, by decide, by decide,
   c1_register_remove_amended [exFolderA] "Drive" "Cat" "MP" "OWN"
     (runN 1 exOneFolder) (reach_runN 1 exOneFolder) 0 (by decide) (by decide)
     exVisit (mkMeta "F1" "A" folderMime [] none) [] (by decide)⟩

/-- C10 witness: the walkthrough scenario's `clip.mp4` entry processed in
the visit context for subfolder A. -/
theorem c10_description_witness :
    (mkMeta "I2" "clip.mp4" "video/mp4" [⟨"Ann", "ann@example.com"⟩] none).owners
      = ⟨"Ann", "ann@example.com"⟩ :: ([] : List Owner)
    ∧ exClipRecord ∈ (entryEffect exVisit exClip).2.1
    ∧ (exClipRecord.get? 1 = some "By Ann in root. \n"
       ∧ ∀ d, exClipRecord.get? 1 = some d →
           includesChar d '\n' = true
           ∧ csvSafe d = "\"" ++ escapeDoubleQuotes d ++ "\"") :=
  ⟨rfl, by decide,
   c10_description exVisit (mkMeta "I2" "clip.mp4" "video/mp4"
       [⟨"Ann", "ann@example.com"⟩] none) []
     ⟨"Ann", "ann@example.com"⟩ [] rfl exClipRecord (by decide)⟩

end GD

namespace GD

/-! ## C5 — the category path of subfolder records -/

/-- C5 (code bug): in the walkthrough scenario the record for `clip.mp4`
(inside subfolder A) carries exactly the same category as the record for
`img.jpg` (at the drive root) — the folder chain never reaches the
category.  The recursive call at index.html line 36 passes only six
arguments, so the computed folder path is bound to the `ownerId` parameter
(visible in the ninth column of the subfolder record) and `folderPath`
falls back to its default empty string. -/
theorem c5_counterexample :
    (runN 2 exScenario).files.map (fun f => f.getD 0 "") = ["img.jpg", "clip.mp4"]
    ∧ (runN 2 exScenario).files.map (fun f => f.getD 6 "")
        = ["Cat>site>channels>Drive ", "Cat>site>channels>Drive "]
    ∧ (runN 2 exScenario).files.map (fun f => f.getD 8 "") = ["OWN", " - A"]
    ∧ (runN 2 exScenario).visited = [exFolderAClip] := by
  refine ⟨by decide, by decide, by decide, rfl⟩

/-! ## Single steps of the CSV reader -/

theorem parse_fs_comma (l f : List Char) (r : List (List Char)) :
    csvParseAux .fieldStart (',' :: l) f r = csvParseAux .fieldStart l [] (f.reverse :: r) := by
  simp [csvParseAux]

theorem parse_mid_comma (l f : List Char) (r : List (List Char)) :
    csvParseAux .mid (',' :: l) f r = csvParseAux .fieldStart l [] (f.reverse :: r) := by
  simp [csvParseAux]

theorem parse_fs_newline (l f : List Char) (r : List (List Char)) :
    csvParseAux .fieldStart ('\n' :: l) f r
      = (f.reverse :: r).reverse :: csvParseAux .fieldStart l [] [] := by
  simp [csvParseAux]

theorem parse_mid_newline (l f : List Char) (r : List (List Char)) :
    csvParseAux .mid ('\n' :: l) f r
      = (f.reverse :: r).reverse :: csvParseAux .fieldStart l [] [] := by
  simp [csvParseAux]

theorem parse_fs_quote (l f : List Char) (r : List (List Char)) :
    csvParseAux .fieldStart ('"' :: l) f r = csvParseAux .quo l f r := by
  simp [csvParseAux]

theorem parse_fs_plain (c : Char) (h1 : c ≠ ',') (h2 : c ≠ '\n') (h3 : c ≠ '"')
    (l f : List Char) (r : List (List Char)) :
    csvParseAux .fieldStart (c :: l) f r = csvParseAux .mid l (c :: f) r := by
  simp [csvParseAux, h1, h2, h3]

theorem parse_mid_plain (c : Char) (h1 : c ≠ ',') (h2 : c ≠ '\n')
    (l f : List Char) (r : List (List Char)) :
    csvParseAux .mid (c :: l) f r = csvParseAux .mid l (c :: f) r := by
  simp [csvParseAux, h1, h2]

theorem parse_quo_char (c : Char) (h : c ≠ '"') (l f : List Char)
    (r : List (List Char)) :
    csvParseAux .quo (c :: l) f r = csvParseAux .quo l (c :: f) r := by
  simp [csvParseAux, h]

theorem parse_quo_close_comma (rest f : List Char) (r : List (List Char)) :
    csvParseAux .quo ('"' :: ',' :: rest) f r
      = csvParseAux .fieldStart rest [] (f.reverse :: r) := rfl

theorem parse_quo_close_newline (rest f : List Char) (r : List (List Char)) :
    csvParseAux .quo ('"' :: '\n' :: rest) f r
      = (f.reverse :: r).reverse :: csvParseAux .fieldStart rest [] [] := rfl

/-- Consuming a run of plain characters in the middle of a field. -/
theorem consume_mid_plain (w : List Char) (hw : ∀ c ∈ w, plainChar c)
    (rest f : List Char) (r : List (List Char)) :
    csvParseAux .mid (w ++ rest) f r = csvParseAux .mid rest (w.reverse ++ f) r := by
  induction w generalizing f with
  | nil => simp
  | cons c cs ih =>
    obtain ⟨h1, h2, h3⟩ := hw c (List.mem_cons_self c cs)
    rw [List.cons_append, parse_mid_plain c h1 h2,
      ih (fun x hx => hw x (List.mem_cons_of_mem c hx))]
    simp

/-- Consuming quote-free characters inside a quoted region. -/
theorem consume_quo_noquote (w : List Char) (hw : ∀ c ∈ w, c ≠ '"')
    (rest f : List Char) (r : List (List Char)) :
    csvParseAux .quo (w ++ rest) f r = csvParseAux .quo rest (w.reverse ++ f) r := by
  induction w generalizing f with
  | nil => simp
  | cons c cs ih =>
    rw [List.cons_append, parse_quo_char c (hw c (List.mem_cons_self c cs)),
      ih (fun x hx => hw x (List.mem_cons_of_mem c hx))]
    simp

end GD

namespace GD

theorem parse_end_fresh : csvParseAux .fieldStart [] [] [] = [] := by
  simp [csvParseAux]

/-- A serializer-shaped field followed by a comma: the reader finishes one
field and returns to field-start mode. -/
theorem field_comma (w : List Char) (hw : GoodField w) (rest : List Char)
    (r : List (List Char)) :
    ∃ pw, csvParseAux .fieldStart (w ++ ',' :: rest) [] r
      = csvParseAux .fieldStart rest [] (pw :: r) := by
  cases hw with
  | plain w' hv =>
    cases w with
    | nil => exact ⟨[], by rw [List.nil_append, parse_fs_comma]; rfl⟩
    | cons c cs =>
      obtain ⟨h1, h2, h3⟩ := hv c (List.mem_cons_self c cs)
      refine ⟨(cs.reverse ++ [c]).reverse, ?_⟩
      rw [List.cons_append, parse_fs_plain c h1 h2 h3,
        consume_mid_plain cs (fun x hx => hv x (List.mem_cons_of_mem c hx)),
        parse_mid_comma]
  | quoted inner hi =>
    refine ⟨inner.reverse.reverse, ?_⟩
    rw [show ('"' :: inner ++ ['"']) ++ ',' :: rest
        = '"' :: (inner ++ ('"' :: ',' :: rest)) by simp]
    rw [parse_fs_quote, consume_quo_noquote inner hi, parse_quo_close_comma]
    simp

/-- A serializer-shaped field followed by a newline: the reader finishes
the record. -/
theorem field_newline (w : List Char) (hw : GoodField w) (rest : List Char)
    (r : List (List Char)) :
    ∃ pw, csvParseAux .fieldStart (w ++ '\n' :: rest) [] r
      = (pw :: r).reverse :: csvParseAux .fieldStart rest [] [] := by
  cases hw with
  | plain w' hv =>
    cases w with
    | nil => exact ⟨[], by rw [List.nil_append, parse_fs_newline]; rfl⟩
    | cons c cs =>
      obtain ⟨h1, h2, h3⟩ := hv c (List.mem_cons_self c cs)
      refine ⟨(cs.reverse ++ [c]).reverse, ?_⟩
      rw [List.cons_append, parse_fs_plain c h1 h2 h3,
        consume_mid_plain cs (fun x hx => hv x (List.mem_cons_of_mem c hx)),
        parse_mid_newline]
  | quoted inner hi =>
    refine ⟨inner.reverse.reverse, ?_⟩
    rw [show ('"' :: inner ++ ['"']) ++ '\n' :: rest
        = '"' :: (inner ++ ('"' :: '\n' :: rest)) by simp]
    rw [parse_fs_quote, consume_quo_noquote inner hi, parse_quo_close_newline]
    simp

/-- A full line of serializer-shaped fields terminated by a newline: the
reader emits exactly one record holding one parsed field per raw field. -/
theorem line_parse (ws : List (List Char)) (hws : ∀ w ∈ ws, GoodField w)
    (hne : ws ≠ []) (rest : List Char) (r : List (List Char)) :
    ∃ rec, csvParseAux .fieldStart (joinWithComma ws ++ '\n' :: rest) [] r
        = rec :: csvParseAux .fieldStart rest [] []
      ∧ rec.length = ws.length + r.length := by
  induction ws generalizing r with
  | nil => cases hne rfl
  | cons w ws ih =>
    cases ws with
    | nil =>
      obtain ⟨pw, hpw⟩ := field_newline w (hws w (List.mem_cons_self w []))
        rest r
      refine ⟨(pw :: r).reverse, ?_, ?_⟩
      · rw [show joinWithComma [w] = w from rfl, hpw]
      · simp only [List.length_reverse, List.length_cons, List.length_nil]
        omega
    | cons w2 ws2 =>
      have hshape : joinWithComma (w :: w2 :: ws2) ++ '\n' :: rest
          = w ++ ',' :: (joinWithComma (w2 :: ws2) ++ '\n' :: rest) := by
        rw [show joinWithComma (w :: w2 :: ws2)
            = w ++ ',' :: joinWithComma (w2 :: ws2) from rfl]
        simp
      rw [hshape]
      obtain ⟨pw, hpw⟩ := field_comma w (hws w (List.mem_cons_self w _))
        (joinWithComma (w2 :: ws2) ++ '\n' :: rest) r
      rw [hpw]
      obtain ⟨rec, hrec, hlen⟩ := ih
        (fun x hx => hws x (List.mem_cons_of_mem w hx)) (by simp) (pw :: r)
      refine ⟨rec, hrec, ?_⟩
      rw [hlen]
      simp
      omega

end GD

namespace GD

theorem mem_includesChar (sStr : String) (c : Char) :
    includesChar sStr c = true ↔ c ∈ sStr.data := by
  simp [includesChar]

/-- On quote-free strings the escaping step is the identity. -/
theorem escape_noop (sStr : String) (hq : ∀ c ∈ sStr.data, c ≠ '"') :
    escapeDoubleQuotes sStr = sStr := by
  unfold escapeDoubleQuotes
  have h1 : sStr.data.map (fun c => if c = '"' then ['"', '"'] else [c])
      = sStr.data.map (fun c => [c]) := by
    apply List.map_congr_left
    intro c hc
    rw [if_neg (hq c hc)]
  rw [h1]
  have h2 : ∀ l : List Char, (l.map (fun c => [c])).flatten = l := by
    intro l
    induction l with
    | nil => rfl
    | cons c cs ih => simp [ih]
  rw [h2]

/-- The serializer turns a quote-free value into a good field. -/
theorem good_csvSafe (sStr : String) (hq : ∀ c ∈ sStr.data, c ≠ '"') :
    GoodField (csvSafe sStr).data := by
  unfold csvSafe
  by_cases h : (includesChar sStr ',' || includesChar sStr '\n') = true
  · rw [if_pos h, escape_noop sStr hq]
    have hd : ("\"" ++ sStr ++ "\"").data = '"' :: (sStr.data ++ ['"']) := by
      simp [String.data_append]
    rw [hd]
    exact GoodField.quoted sStr.data hq
  · rw [if_neg h]
    refine GoodField.plain sStr.data ?_
    intro c hc
    rw [Bool.or_eq_true] at h
    push_neg at h
    obtain ⟨hcom, hnl⟩ := h
    refine ⟨?_, ?_, hq c hc⟩
    · intro hcc
      subst hcc
      exact hcom ((mem_includesChar sStr ',').mpr hc)
    · intro hcc
      subst hcc
      exact hnl ((mem_includesChar sStr '\n').mpr hc)

theorem joinComma_data (ss : List String) :
    (joinComma ss).data = joinWithComma (ss.map String.data) := by
  induction ss with
  | nil => rfl
  | cons x ss ih =>
    cases ss with
    | nil => rfl
    | cons y ss2 =>
      rw [show joinComma (x :: y :: ss2) = x ++ "," ++ joinComma (y :: ss2) from rfl,
        String.data_append, String.data_append, ih]
      simp
      rfl

theorem joinWithComma_append (xs ys : List (List Char)) (hx : xs ≠ []) (hy : ys ≠ []) :
    joinWithComma (xs ++ ys) = joinWithComma xs ++ ',' :: joinWithComma ys := by
  induction xs with
  | nil => cases hx rfl
  | cons w xs ih =>
    cases xs with
    | nil =>
      cases ys with
      | nil => cases hy rfl
      | cons y ys2 => rfl
    | cons w2 xs2 =>
      have h1 : joinWithComma ((w :: w2 :: xs2) ++ ys)
          = w ++ ',' :: joinWithComma ((w2 :: xs2) ++ ys) := rfl
      have h2 : joinWithComma (w :: w2 :: xs2)
          = w ++ ',' :: joinWithComma (w2 :: xs2) := rfl
      rw [h1, h2, ih (by simp)]
      simp

theorem joinWithComma_snoc (xs : List (List Char)) (v : List Char) (hx : xs ≠ []) :
    joinWithComma (xs ++ [v]) = joinWithComma xs ++ ',' :: v := by
  have h := joinWithComma_append xs [v] hx (by simp)
  simpa using h

theorem joinWithComma_replicate_nil (xs : List (List Char)) (hx : xs ≠ []) (k : Nat) :
    joinWithComma (xs ++ List.replicate k [])
      = joinWithComma xs ++ List.replicate k ',' := by
  induction k with
  | zero => simp
  | succ k ih =>
    rw [show List.replicate (k + 1) ([] : List Char) = List.replicate k ([] : List Char) ++ [[]] from List.replicate_succ' k ([] : List Char)]
    rw [← List.append_assoc,
      joinWithComma_snoc _ [] (by
        intro hcon
        exact hx (List.append_eq_nil.mp hcon).1),
      ih, show List.replicate (k + 1) ',' = List.replicate k ',' ++ [','] from List.replicate_succ' k ',']
    simp

end GD

namespace GD

/-- The characters of one produced data line (before its newline). -/
theorem record_line_chars (fld : List String) (k : Nat) (hfld : fld ≠ []) :
    (arrayToCSVLine fld ++ commas k).data
      = joinWithComma ((fld.map csvSafe).map String.data ++ List.replicate k []) := by
  rw [String.data_append]
  unfold arrayToCSVLine
  rw [joinComma_data, show (commas k).data = List.replicate k ',' from rfl,
    joinWithComma_replicate_nil _ (by
      intro hcon
      rw [List.map_eq_nil_iff, List.map_eq_nil_iff] at hcon
      exact hfld hcon) k]

theorem record_good_fields (fld : List String)
    (hq : ∀ x ∈ fld, ∀ c ∈ x.data, c ≠ '"') (k : Nat) :
    ∀ w ∈ (fld.map csvSafe).map String.data ++ List.replicate k [], GoodField w := by
  intro w hw
  rcases List.mem_append.mp hw with hw | hw
  · simp only [List.mem_map] at hw
    obtain ⟨y, ⟨x, hx, rfl⟩, rfl⟩ := hw
    exact good_csvSafe x (hq x hx)
  · have hwn : w = [] := List.eq_of_mem_replicate hw
    subst hwn
    exact GoodField.plain [] (by intro c hc; cases hc)

theorem splitOnChar_ne_nil (c : Char) (l : List Char) : splitOnChar c l ≠ [] := by
  induction l with
  | nil => simp [splitOnChar]
  | cons x xs ih =>
    cases h : splitOnChar c xs with
    | nil => cases ih h
    | cons p ps =>
      by_cases hxc : x = c <;> simp [splitOnChar, h, hxc]

/-- Every character of a split piece avoids the separator and comes from
the original list. -/
theorem splitOnChar_pieces (c : Char) (l : List Char) :
    ∀ p ∈ splitOnChar c l, ∀ x ∈ p, x ≠ c ∧ x ∈ l := by
  induction l with
  | nil =>
    intro p hp x hx
    simp only [splitOnChar, List.mem_singleton] at hp
    subst hp
    cases hx
  | cons y ys ih =>
    intro p hp x hx
    cases h : splitOnChar c ys with
    | nil => cases splitOnChar_ne_nil c ys h
    | cons q qs =>
      rw [show splitOnChar c (y :: ys)
          = if y = c then [] :: q :: qs else (y :: q) :: qs from by
        simp only [splitOnChar, h]] at hp
      by_cases hyc : y = c
      · rw [if_pos hyc] at hp
        rcases List.mem_cons.mp hp with hp | hp
        · subst hp
          cases hx
        · have hmem : p ∈ splitOnChar c ys := by rw [h]; exact hp
          obtain ⟨h1, h2⟩ := ih p hmem x hx
          exact ⟨h1, List.mem_cons_of_mem y h2⟩
      · rw [if_neg hyc] at hp
        rcases List.mem_cons.mp hp with hp | hp
        · subst hp
          rcases List.mem_cons.mp hx with hx | hx
          · subst hx
            exact ⟨hyc, List.mem_cons_self x ys⟩
          · have hmem : q ∈ splitOnChar c ys := by rw [h]; simp
            obtain ⟨h1, h2⟩ := ih q hmem x hx
            exact ⟨h1, List.mem_cons_of_mem y h2⟩
        · have hmem : p ∈ splitOnChar c ys := by rw [h]; exact List.mem_cons_of_mem q hp
          obtain ⟨h1, h2⟩ := ih p hmem x hx
          exact ⟨h1, List.mem_cons_of_mem y h2⟩

theorem headerFields_good : ∀ w ∈ headerFields, GoodField w := by
  intro w hw
  fin_cases hw <;> exact GoodField.plain _ (by decide)

theorem metadataColumns_good (mdf : String)
    (hmdf : ∀ c ∈ mdf.data, c ≠ '"' ∧ c ≠ '\n') :
    ∀ w ∈ (metadataColumns mdf).map String.data, GoodField w := by
  intro w hw
  simp only [metadataColumns, List.map_map, List.mem_map, Function.comp] at hw
  obtain ⟨p, hp, rfl⟩ := hw
  refine GoodField.plain _ ?_
  intro ch hch
  rw [String.data_append] at hch
  rcases List.mem_append.mp hch with hch | hch
  · have hplain : ∀ c ∈ ("metadataField_" : String).data, plainChar c := by decide
    exact hplain ch hch
  · obtain ⟨hne_c, hinl⟩ := splitOnChar_pieces ',' mdf.data p hp ch hch
    obtain ⟨hqc, hnc⟩ := hmdf ch hinl
    exact ⟨hne_c, hnc, hqc⟩

theorem metadataColumns_ne_nil (mdf : String) :
    (metadataColumns mdf).map String.data ≠ [] := by
  intro hcon
  apply splitOnChar_ne_nil ',' mdf.data
  simpa [metadataColumns] using hcon

theorem metadataColumns_length (mdf : String) :
    (metadataColumns mdf).length = (splitOnChar ',' mdf.data).length := by
  simp [metadataColumns]

/-- The characters of the produced header line (before its newline). -/
theorem header_chars (mdf : String) :
    (headerLine ++ "," ++ joinComma (metadataColumns mdf)).data
      = joinWithComma (headerFields ++ (metadataColumns mdf).map String.data) := by
  rw [String.data_append, String.data_append, joinComma_data,
    joinWithComma_append headerFields _ (by decide) (metadataColumns_ne_nil mdf),
    show joinWithComma headerFields = headerLine.data from by decide]
  simp

theorem foldl_lines (files : List (List String)) (init : String) (k : Nat) :
    files.foldl (fun acc f => acc ++ arrayToCSVLine f ++ commas k ++ "\n") init
      = init ++ concatStrings
          (files.map (fun f => arrayToCSVLine f ++ commas k ++ "\n")) := by
  induction files generalizing init with
  | nil =>
    apply String.ext
    simp [concatStrings]
  | cons f fs ih =>
    simp only [List.foldl_cons, List.map_cons]
    rw [ih, show concatStrings ((arrayToCSVLine f ++ commas k ++ "\n")
        :: fs.map (fun f => arrayToCSVLine f ++ commas k ++ "\n"))
      = (arrayToCSVLine f ++ commas k ++ "\n")
          ++ concatStrings (fs.map (fun f => arrayToCSVLine f ++ commas k ++ "\n"))
      from rfl]
    apply String.ext
    simp [String.data_append]

/-- Parsing the concatenation of the produced data lines. -/
theorem body_parse (files : List (List String)) (k : Nat)
    (h10 : ∀ f ∈ files, f.length = 10)
    (hq : ∀ f ∈ files, ∀ x ∈ f, ∀ c ∈ x.data, c ≠ '"') :
    (csvParseAux .fieldStart
        (concatStrings (files.map (fun f => arrayToCSVLine f ++ commas k ++ "\n"))).data
        [] []).length = files.length
    ∧ ∀ rec ∈ csvParseAux .fieldStart
        (concatStrings (files.map (fun f => arrayToCSVLine f ++ commas k ++ "\n"))).data
        [] [], rec.length = 10 + k := by
  induction files with
  | nil =>
    rw [show (List.map (fun f => arrayToCSVLine f ++ commas k ++ "\n")
        ([] : List (List String))) = [] from rfl,
      show concatStrings [] = "" from rfl,
      show ("" : String).data = [] from rfl, parse_end_fresh]
    exact ⟨rfl, by intro rec hrec; cases hrec⟩
  | cons f fs ih =>
    have hmem : f ∈ f :: fs := List.mem_cons_self f fs
    have hfne : f ≠ [] := by
      intro hcon
      have h0 := h10 f hmem
      rw [hcon] at h0
      cases h0
    have hws_len : ((f.map csvSafe).map String.data
        ++ List.replicate k ([] : List Char)).length = 10 + k := by
      simp only [List.length_append, List.length_map, List.length_replicate,
        h10 f hmem]
    have hsplit : (concatStrings ((f :: fs).map
          (fun f => arrayToCSVLine f ++ commas k ++ "\n"))).data
        = joinWithComma ((f.map csvSafe).map String.data ++ List.replicate k [])
          ++ '\n' :: (concatStrings (fs.map
            (fun f => arrayToCSVLine f ++ commas k ++ "\n"))).data := by
      rw [List.map_cons,
        show concatStrings ((arrayToCSVLine f ++ commas k ++ "\n")
            :: fs.map (fun f => arrayToCSVLine f ++ commas k ++ "\n"))
          = (arrayToCSVLine f ++ commas k ++ "\n")
            ++ concatStrings (fs.map (fun f => arrayToCSVLine f ++ commas k ++ "\n"))
          from rfl,
        String.data_append, String.data_append, record_line_chars f k hfne]
      simp
    rw [hsplit]
    obtain ⟨rec, hrec, hlen⟩ := line_parse
      ((f.map csvSafe).map String.data ++ List.replicate k [])
      (record_good_fields f (hq f hmem) k)
      (by
        intro hcon
        obtain ⟨h1, h2⟩ := List.append_eq_nil.mp hcon
        rw [List.map_eq_nil_iff, List.map_eq_nil_iff] at h1
        exact hfne h1)
      (concatStrings (fs.map (fun f => arrayToCSVLine f ++ commas k ++ "\n"))).data
      []
    rw [hrec]
    obtain ⟨ihl, ihm⟩ := ih (fun g hg => h10 g (List.mem_cons_of_mem f hg))
      (fun g hg => hq g (List.mem_cons_of_mem f hg))
    constructor
    · simp [ihl]
    · intro r2 hr2
      rcases List.mem_cons.mp hr2 with hr2 | hr2
      · subst hr2
        rw [hlen, hws_len]
        simp
      · exact ihm r2 hr2

end GD

namespace GD

/-- C3 (amended): for every traversal state whose collected field values
are free of double quotes, and any metadata-field configuration free of
double quotes and newlines, the produced CSV text consists of exactly
`N + 1` top-level lines — the header plus one line per collected record —
and every line, the header included, has exactly
`10 + metadataFieldCount` top-level comma-separated fields, where
`metadataFieldCount` is the number of configured metadata field names.
(The quote-free hypotheses are forced by the counterexample below: the
serializer leaves a double quote in an unwrapped field untouched, which
defeats any top-level reading of the line.) -/
theorem c3_row_and_field_counts (cs0 : List DriveTree) (dn rc mp oi : String)
    (s : St) (hre : Reach (initSt cs0 dn rc mp oi) s) (mdf : String)
    (hmdf : ∀ c ∈ mdf.data, c ≠ '"' ∧ c ≠ '\n')
    (hq : ∀ f ∈ s.files, ∀ x ∈ f, ∀ c ∈ x.data, c ≠ '"') :
    (csvParse (makeCsvText s.files mdf)).length = s.files.length + 1
    ∧ ∀ rec ∈ csvParse (makeCsvText s.files mdf),
        rec.length = 10 + (splitOnChar ',' mdf.data).length := by
  have h10 : ∀ f ∈ s.files, f.length = 10 := (inv_reach hre).recLen
  have htext : makeCsvText s.files mdf
      = (headerLine ++ "," ++ joinComma (metadataColumns mdf) ++ "\n")
        ++ concatStrings (s.files.map (fun f => arrayToCSVLine f
            ++ commas ((splitOnChar ',' mdf.data).length) ++ "\n")) := by
    rw [show makeCsvText s.files mdf
        = s.files.foldl (fun acc f => acc ++ arrayToCSVLine f
            ++ commas ((splitOnChar ',' mdf.data).length) ++ "\n")
          (headerLine ++ "," ++ joinComma (metadataColumns mdf) ++ "\n") from rfl]
    exact foldl_lines s.files _ _
  have hdata : (makeCsvText s.files mdf).data
      = joinWithComma (headerFields ++ (metadataColumns mdf).map String.data)
        ++ '\n' :: (concatStrings (s.files.map (fun f => arrayToCSVLine f
            ++ commas ((splitOnChar ',' mdf.data).length) ++ "\n"))).data := by
    rw [htext]
    rw [show (headerLine ++ "," ++ joinComma (metadataColumns mdf) ++ "\n")
        = (headerLine ++ "," ++ joinComma (metadataColumns mdf)) ++ "\n" from rfl]
    rw [String.data_append, String.data_append, header_chars]
    simp
  obtain ⟨rec0, hrec0, hlen0⟩ := line_parse
    (headerFields ++ (metadataColumns mdf).map String.data)
    (by
      intro w hw
      rcases List.mem_append.mp hw with hw | hw
      · exact headerFields_good w hw
      · exact metadataColumns_good mdf hmdf w hw)
    (by
      intro hcon
      exact absurd (List.append_eq_nil.mp hcon).1 (by decide))
    (concatStrings (s.files.map (fun f => arrayToCSVLine f
        ++ commas ((splitOnChar ',' mdf.data).length) ++ "\n"))).data
    []
  obtain ⟨hbl, hbm⟩ := body_parse s.files ((splitOnChar ',' mdf.data).length) h10 hq
  unfold csvParse
  rw [hdata, hrec0]
  constructor
  · simp only [List.length_map, List.length_cons, hbl]
  · intro rec hrecm
    simp only [List.mem_map] at hrecm
    obtain ⟨rc, hrc, rfl⟩ := hrecm
    rw [List.length_map]
    rcases List.mem_cons.mp hrc with hrc | hrc
    · subst hrc
      rw [hlen0]
      simp only [List.length_append, List.length_nil, List.length_map,
        metadataColumns_length]
      rw [show headerFields.length = 10 from rfl]
      omega
    · exact hbm rc hrc

/-- C3 counterexample: a drive holding a single media file whose name
starts with a double quote.  The traversal collects N = 1 record, yet the
produced text does not read as N + 1 = 2 top-level lines of 11 fields: the
unescaped leading quote opens a quoted region that swallows the line
structure, and the reader finds 3 top-level lines with 11, 1 and 1 fields.
So the claim fails as stated for arbitrary traversals. -/
theorem c3_counterexample :
    (runN 1 exQuoteScenario).files.length = 1
    ∧ (csvParse (makeCsvText (runN 1 exQuoteScenario).files "fld1")).length = 3
    ∧ (csvParse (makeCsvText (runN 1 exQuoteScenario).files "fld1")).length
        ≠ (runN 1 exQuoteScenario).files.length + 1
    ∧ (csvParse (makeCsvText (runN 1 exQuoteScenario).files "fld1")).map List.length
        = [11, 1, 1] := by
  refine ⟨by decide, by decide, by decide, by decide⟩

/-- C3 witness: the walkthrough scenario's two records with one metadata
field configured. -/
theorem c3_row_and_field_counts_witness :
    Reach (initSt [exFolderAClip, exImg] "Drive" "Cat" "MP" "OWN") (runN 2 exScenario)
    ∧ (∀ c ∈ ("fld1" : String).data, c ≠ '"' ∧ c ≠ '\n')
    ∧ (∀ f ∈ (runN 2 exScenario).files, ∀ x ∈ f, ∀ c ∈ x.data, c ≠ '"')
    ∧ ((csvParse (makeCsvText (runN 2 exScenario).files "fld1")).length
        = (runN 2 exScenario).files.length + 1
      ∧ ∀ rec ∈ csvParse (makeCsvText (runN 2 exScenario).files "fld1"),
          rec.length = 10 + (splitOnChar ',' ("fld1" : String).data).length) :=
  ⟨reach_runN 2 exScenario, by decide, by decide,
   c3_row_and_field_counts [exFolderAClip, exImg] "Drive" "Cat" "MP" "OWN"
     (runN 2 exScenario) (reach_runN 2 exScenario) "fld1" (by decide) (by decide)⟩

end GD
